import Mathlib

/-!
# mysyslog: emitter framing, listener, slot pool and log writer

A shallow embedding of `src/mysyslog.c` (the client library, `putlog`) and of
`src/main.c` (the daemon: `read_msg`, the dispatch loop of `main`,
`create_msgbuf`, `get_timestamp`, `save_msg`).

Conventions of the embedding

* a C `char` is a `Char`; a `char` array is a `Buf`, the list of all its
  bytes, garbage included.  A local array `char a[N]` starts as `alloc N junk`
  for an arbitrary `junk` (indeterminate initial contents);
* a `char *` argument read as a string is read with `cstr`: the bytes up to,
  not including, the first NUL;
* stores into an array go through `poke`; a store that would run past the end
  of the array (undefined behaviour in C) is clipped at the end, so every
  array keeps its size;
* the FIFO and the log file are lists of bytes; what the operating system
  decides (does a `write` go through, the clock, `localtime`) is an explicit
  argument;
* the concurrent system takes the statements of `save_msg` one at a time:
  `pthread_mutex_lock` returns only when the mutex is free, and a `write` on
  the log file appends the bytes it stores in one piece.
-/

namespace Mysyslog

/-! ## Constants (`mysyslog.h`, `main.c`) -/

/-- The constant `#define MYSYSLOG_FIFO_BUFSIZE 4096` of `mysyslog.h`. -/
def MYSYSLOG_FIFO_BUFSIZE : Nat := 4096

/-- The constant `#define TIMESTAMP_BUFSIZE 64` of `main.c`. -/
def TIMESTAMP_BUFSIZE : Nat := 64

/-- The constant `#define LOG_WRITER_BUFSIZE (TIMESTAMP_BUFSIZE + MYSYSLOG_FIFO_BUFSIZE + 1)`. -/
def LOG_WRITER_BUFSIZE : Nat := TIMESTAMP_BUFSIZE + MYSYSLOG_FIFO_BUFSIZE + 1

/-- The constant `#define MAXTHREADS 100` of `main.c`. -/
def MAXTHREADS : Nat := 100

/-- Largest value of a C `int` (32 bits). -/
def INT_MAX : Nat := 2147483647

/-! ## Bytes, arrays and the C library calls the program uses -/

/-- The string terminator, the byte 0. -/
def NUL : Char := Char.ofNat 0

/-- The line terminator, the byte 10. -/
def NL : Char := Char.ofNat 10

/-- The raw contents of a `char` array. -/
abbrev Buf := List Char

/-- A `char a[size]` whose initial contents are indeterminate: the first
`size` bytes of `junk`, padded when `junk` is shorter. -/
def alloc (size : Nat) (junk : List Char) : Buf :=
  junk.take size ++ List.replicate (size - junk.length) NUL

/-- The C string that starts at the beginning of the array. -/
def cstr (b : Buf) : List Char :=
  b.takeWhile (fun c => c != NUL)

/-- The function `strlen`. -/
def strlen (b : Buf) : Nat :=
  (cstr b).length

/-- Stores the bytes `s` at offset `k` of the array `b`; bytes that would
fall past the end of `b` are not stored. -/
def poke (b : Buf) (k : Nat) (s : List Char) : Buf :=
  b.take k ++ s.take (b.length - k) ++ b.drop (k + s.length)

/-- The call `strcpy(&dst[k], src)`: copies the string and its terminator. -/
def strcpy (dst : Buf) (k : Nat) (src : List Char) : Buf :=
  poke dst k (cstr src ++ [NUL])

/-- The call `snprintf(buf, size, fmt, ...)`, where `out` is the complete formatted
text: stores at most `size - 1` bytes of it and a terminator, and returns the
length of the complete text, or a negative value when that length does not
fit an `int`. -/
def snprintf (buf : Buf) (size : Nat) (out : List Char) : Buf × Int :=
  (if size = 0 then buf else poke buf 0 (out.take (size - 1) ++ [NUL]),
   if out.length ≤ INT_MAX then (out.length : Int) else -1)

/-- The conversion `%d` of an `int`. -/
def fmt_d (i : Int) : List Char :=
  if i < 0 then '-' :: Nat.toDigits 10 i.natAbs else Nat.toDigits 10 i.natAbs

/-- The call `write(fd, buf, n)` on a descriptor whose write either goes through in
full (`ok`) or fails: the bytes handed to the file and the return value. -/
def write (ok : Bool) (buf : Buf) (n : Nat) : List Char × Int :=
  if ok then (buf.take n, (n : Int)) else ([], -1)

/-! ## The emitter (`mysyslog.c`) -/

/-- The handle, `struct mysyslog`. -/
structure mysyslog where
  pname : List Char
  pid : Int
  fifo_fd : Int
deriving DecidableEq

/-- The text of the format `"%s/%d %s\n"` for a handle and a message. -/
def frame (log : mysyslog) (message : List Char) : List Char :=
  cstr log.pname ++ '/' :: fmt_d log.pid ++ ' ' :: cstr message ++ [NL]

/-- The function `putlog`: the bytes written to the FIFO and the value returned.
`junk` is the initial content of the local `buf`, `ok` tells whether the
`write` on the FIFO goes through.  `none` stands for the branch `n < 0`
(`snprintf` failed), where the byte count handed to `write` is not a size. -/
def putlog (junk : List Char) (ok : Bool) (log : mysyslog) (message : List Char) :
    Option (List Char × Int) :=
  let buf := alloc MYSYSLOG_FIFO_BUFSIZE junk
  if log.fifo_fd = -1 then
    some ([], -1)
  else
    let (buf, n) := snprintf buf MYSYSLOG_FIFO_BUFSIZE (frame log message)
    if n < 0 then
      none
    else if n ≥ (MYSYSLOG_FIFO_BUFSIZE : Int) then
      let buf := strcpy buf (MYSYSLOG_FIFO_BUFSIZE - 5) "...\n".toList
      some (write ok buf MYSYSLOG_FIFO_BUFSIZE)
    else
      some (write ok buf n.toNat)

/-- The 4096 bytes written for a frame that does not fit the array. -/
def truncated (log : mysyslog) (message : List Char) : List Char :=
  (frame log message).take 4091 ++ "...\n".toList ++ [NUL]

/-- The handle used in the examples: name `app`, pid 42, an open FIFO. -/
def app42 : mysyslog := { pname := "app".toList, pid := 42, fifo_fd := 3 }

/-! ## The listener (`main.c`) -/

/-- The bytes one `fgets` consumes: at most `n`, and none after a newline. -/
def takeLine : Nat → List Char → List Char
  | 0, _ => []
  | _ + 1, [] => []
  | n + 1, c :: cs => if c = NL then [c] else c :: takeLine n cs

/-- The call `fgets(buf, size, stream)`: `stream` is what is left to read, its end is
end-of-file.  At end-of-file nothing is stored and the result is `NULL`
(`none`); otherwise the bytes read and a terminator are stored. -/
def fgets (buf : Buf) (size : Nat) (stream : List Char) : Option Buf × List Char :=
  match stream with
  | [] => (none, [])
  | _ :: _ =>
    let line := takeLine (size - 1) stream
    (some (poke buf 0 (line ++ [NUL])), stream.drop line.length)

/-- The function `read_msg`: the array, what is left of the FIFO, and the value returned. -/
def read_msg (buf : Buf) (fd : List Char) : Buf × List Char × Nat :=
  match fgets buf MYSYSLOG_FIFO_BUFSIZE fd with
  | (none, fd) => (poke buf 0 [NUL], fd, 0)
  | (some buf, fd) => (buf, fd, strlen buf)

/-! ## The slot pool and the dispatch loop (`main.c`) -/

/-- The function `create_msgbuf(max)`: `heap i` is what `malloc` hands out for slot `i`. -/
def create_msgbuf (max : Nat) (heap : Nat → List Char) : List Buf :=
  (List.range max).map (fun i => poke (alloc LOG_WRITER_BUFSIZE (heap i)) 0 [NUL])

/-- The test `logmsg_buffer[i][0] == 0`. -/
def slot_free (pool : List Buf) (i : Nat) : Bool :=
  (pool.getD i []).head? == some NUL

/-- The state of the daemon that the main loop works on. -/
structure Daemon where
  /-- The array `char buf[MYSYSLOG_FIFO_BUFSIZE]` of `main`. -/
  buf : Buf
  /-- The slots, `logmsg_buffer`. -/
  logmsg_buffer : List Buf
  /-- What is left to read from the FIFO. -/
  fifo : List Char
  /-- The workers created by `pthread_create`, each named by the index of the
  slot it was handed, in the order of creation; a worker is taken off the
  list when it returns. -/
  threads : List Nat
  /-- The messages reported by `say("ignored message %s", buf)`. -/
  ignored : List (List Char)
deriving DecidableEq

/-- The loop `for (i = 0; i < MAXTHREADS; i++)` of `main`, entered at `i` with
`n` iterations left: the slots, the workers created and the value of `i`
when the loop is left. -/
def for_loop (buf : Buf) : Nat → Nat → List Buf → List Nat → List Buf × List Nat × Nat
  | 0, i, pool, threads => (pool, threads, i)
  | n + 1, i, pool, threads =>
    if slot_free pool i then
      (pool.set i (strcpy (pool.getD i []) 0 buf), threads ++ [i], i)
    else
      for_loop buf n (i + 1) pool threads

/-- The body of the loop `do ... while (flag_run)` of `main`. -/
def loop_body (d : Daemon) : Daemon :=
  let (buf, fifo, L) := read_msg d.buf d.fifo
  if L ≠ 0 then
    let (pool, threads, i) := for_loop buf MAXTHREADS 0 d.logmsg_buffer d.threads
    { buf := buf, fifo := fifo, logmsg_buffer := pool, threads := threads,
      ignored := if i = MAXTHREADS then d.ignored ++ [cstr buf] else d.ignored }
  else
    { d with buf := buf, fifo := fifo }

/-- The loop of `main` run for `n` rounds (`flag_run` stays set that long). -/
def main_loop : Nat → Daemon → Daemon
  | 0, d => d
  | n + 1, d => main_loop n (loop_body d)

/-- The daemon as `main` enters its loop: `junk` is the initial content of
`buf`, `heap` that of the slots, `fifo` all the bytes the emitters will write. -/
def main_init (junk : List Char) (heap : Nat → List Char) (fifo : List Char) : Daemon :=
  { buf := alloc MYSYSLOG_FIFO_BUFSIZE junk, logmsg_buffer := create_msgbuf MAXTHREADS heap,
    fifo := fifo, threads := [], ignored := [] }

/-- The daemon's arrays have the sizes `main` and `create_msgbuf` give them. -/
def well_formed (d : Daemon) : Prop :=
  d.buf.length = MYSYSLOG_FIFO_BUFSIZE ∧ d.logmsg_buffer.length = MAXTHREADS ∧
    ∀ b ∈ d.logmsg_buffer, b.length = LOG_WRITER_BUFSIZE

/-- A line as the listener expects it: it ends with the line terminator, has
no other line terminator and no NUL, and fits the array of `read_msg`. -/
def is_line (l : List Char) : Prop :=
  l.getLast? = some NL ∧ NL ∉ l.dropLast ∧ NUL ∉ l ∧ l.length < MYSYSLOG_FIFO_BUFSIZE

instance (l : List Char) : Decidable (is_line l) := by
  unfold is_line
  infer_instance

/-- The daemon after the lines `done` have gone through the main loop with no
worker returning, `rest` being still in the FIFO: the first `MAXTHREADS` lines
sit in the slots of the same index, one worker each, the other lines of `done`
were reported as ignored, and the slots beyond are free. -/
def dispatched (done rest : List (List Char)) (d : Daemon) : Prop :=
  well_formed d ∧ d.fifo = rest.flatten ∧
  d.threads = List.range (min done.length MAXTHREADS) ∧
  d.ignored = done.drop MAXTHREADS ∧
  (∀ j, j < min done.length MAXTHREADS → cstr (d.logmsg_buffer.getD j []) = done.getD j []) ∧
  (∀ j, min done.length MAXTHREADS ≤ j → j < MAXTHREADS →
    slot_free d.logmsg_buffer j = true)

/-- The lines of the stress test: 200 frames of one emitter, `app`/42, each
with the message `hello mysyslog`. -/
def stress_lines : List (List Char) :=
  List.replicate 200 "app/42 hello mysyslog\n".toList

/-! ## The log writer (`main.c`) -/

/-- What the system clock answers: `tm` is the text `strftime` makes of
`"%b %d %H:%M:%S."` (`none` when `localtime` fails), `tv_usec` the microseconds. -/
structure Clock where
  tm : Option (List Char)
  tv_usec : Nat
deriving DecidableEq

/-- The conversion `%03u`. -/
def fmt_03u (n : Nat) : List Char :=
  List.replicate (3 - (Nat.toDigits 10 n).length) '0' ++ Nat.toDigits 10 n

/-- The function `get_timestamp(buf)`. -/
def get_timestamp (buf : Buf) (clk : Clock) : Buf :=
  match clk.tm with
  | some date => (snprintf buf 64 (cstr date ++ fmt_03u (clk.tv_usec / 1000))).1
  | none => poke buf 0 [NUL]

/-- The result of one run of `save_msg`. -/
structure Saved where
  /-- The value the thread function returns, `0` or `-1`. -/
  ret : Int
  /-- The log file. -/
  logfile : List Char
  /-- The slot the worker was handed. -/
  arg : Buf
  /-- Is `mutex` still locked when the function returns. -/
  mutex_locked : Bool
deriving DecidableEq

/-- The text `save_msg` formats into its local `message`. -/
def log_record (tstamp0 message0 : List Char) (clk : Clock) (arg : Buf) : Buf :=
  let tstamp := get_timestamp (alloc TIMESTAMP_BUFSIZE tstamp0) clk
  (snprintf (alloc LOG_WRITER_BUFSIZE message0) LOG_WRITER_BUFSIZE
    (cstr tstamp ++ ' ' :: cstr arg)).1

/-- The function `save_msg(arg)`, run by a worker once `pthread_mutex_lock`
has returned.  `tstamp0` and `message0` are the initial contents of the two
local arrays, `ok` tells whether the `write` on the log file goes through.
On the failure of `write` the function returns at once, the mutex locked and
the slot uncleared.  The diagnostics of `say`, and the store into the local
`message` made for them, have no effect on the result and are left out. -/
def save_msg (tstamp0 message0 : List Char) (clk : Clock) (ok : Bool)
    (logfile : List Char) (arg : Buf) : Saved :=
  let message := log_record tstamp0 message0 clk arg
  let L := strlen message
  let (bytes, r) := write ok message L
  if r = -1 then
    { ret := -1, logfile := logfile ++ bytes, arg := arg, mutex_locked := true }
  else
    { ret := 0, logfile := logfile ++ bytes, arg := poke arg 0 [NUL], mutex_locked := false }

/-- The clock of the examples: 24 December, 12:00:01 and 250 milliseconds. -/
def xmas : Clock := { tm := some "Dec 24 12:00:01.".toList, tv_usec := 250000 }

/-- A slot that holds the message `app/42 hello`. -/
def hello_slot : Buf := "app/42 hello\n".toList ++ [NUL]

/-- From the emitter to the log file: `putlog` writes a frame, the daemon,
just started, reads it from the FIFO in one round of its main loop, and the
worker created in that round runs `save_msg` on an empty log file.  The
result is the content of the log file, `none` when the round creates no
worker or `putlog` returns nothing. -/
def round_trip (junk1 junk2 : List Char) (heap : Nat → List Char)
    (tstamp0 message0 : List Char) (clk : Clock) (log : mysyslog) (T : List Char) :
    Option (List Char) :=
  match putlog junk1 true log T with
  | none => none
  | some (w, _) =>
    match (loop_body (main_init junk2 heap w)).threads with
    | [i] => some (save_msg tstamp0 message0 clk true []
        ((loop_body (main_init junk2 heap w)).logmsg_buffer.getD i [])).logfile
    | _ => none

/-! ## The daemon and its workers, one `save_msg` at a time -/

/-- The daemon together with the log file and the mutex. -/
structure System where
  daemon : Daemon
  logfile : List Char
  mutex_locked : Bool
deriving DecidableEq

/-- The two steps of the system: the main loop does one round, whatever the
FIFO holds at that moment (a round that reads a non-empty message dispatches
it), or a worker that was created and has not returned runs `save_msg` from
`pthread_mutex_lock` to its `return`, which takes a mutex that is not locked. -/
inductive Step : System → System → Prop
  | dispatch (s : System) (fifo : List Char) :
      Step s { s with daemon := loop_body { s.daemon with fifo := fifo } }
  | finish (s : System) (i : Nat) (tstamp0 message0 : List Char) (clk : Clock) (ok : Bool)
      (hi : i ∈ s.daemon.threads) (hm : s.mutex_locked = false) :
      Step s
        { daemon := { s.daemon with
            logmsg_buffer := s.daemon.logmsg_buffer.set i
              (save_msg tstamp0 message0 clk ok s.logfile
                (s.daemon.logmsg_buffer.getD i [])).arg,
            threads := s.daemon.threads.erase i },
          logfile := (save_msg tstamp0 message0 clk ok s.logfile
            (s.daemon.logmsg_buffer.getD i [])).logfile,
          mutex_locked := (save_msg tstamp0 message0 clk ok s.logfile
            (s.daemon.logmsg_buffer.getD i [])).mutex_locked }

/-- The states the system reaches from the start of `main`: the pool built by
`create_msgbuf`, no worker, the mutex unlocked. -/
inductive Reachable : System → Prop
  | init (junk : List Char) (heap : Nat → List Char) (fifo logfile : List Char) :
      Reachable { daemon := main_init junk heap fifo, logfile := logfile,
                  mutex_locked := false }
  | step (s t : System) (hs : Reachable s) (ht : Step s t) : Reachable t

/-- The system after the daemon, just started, has done one round of its main
loop on a FIFO that holds `app/42 hello`. -/
def hello_system : System :=
  { daemon := loop_body (main_init [] (fun _ => []) "app/42 hello\n".toList),
    logfile := [], mutex_locked := false }

/-- The system as `main` enters its loop, with an empty FIFO and an empty log. -/
def start_system : System :=
  { daemon := main_init [] (fun _ => []) [], logfile := [], mutex_locked := false }

/-- The invariant of the slots: every worker that has not returned has a slot
of the pool, no two of them have the same slot, and their slots are not free. -/
def owned (d : Daemon) : Prop :=
  well_formed d ∧ d.threads.Nodup ∧
    ∀ i ∈ d.threads, i < MAXTHREADS ∧ slot_free d.logmsg_buffer i = false

/-! ## The workers of the daemon, one statement of `save_msg` at a time -/

/-- What a `write` on the log file does with the `n` bytes it is handed: it
stores them all, it fails, or it stores the first `k` of them only and returns
their number. -/
inductive WriteResult where
  | all
  | fail
  | short (k : Nat)
deriving DecidableEq

/-- The call `write(lfd, buf, n)` with that result: the bytes appended to the
log file and the value returned. -/
def write_res (res : WriteResult) (buf : Buf) (n : Nat) : List Char × Int :=
  match res with
  | WriteResult.all => write true buf n
  | WriteResult.fail => write false buf n
  | WriteResult.short k => (buf.take (min k n), ((min k n : Nat) : Int))

theorem alloc_length (size : Nat) (junk : List Char) : (alloc size junk).length = size := by
  simp only [alloc, List.length_append, List.length_take, List.length_replicate]
  omega

theorem poke_length (b : Buf) (k : Nat) (s : List Char) : (poke b k s).length = b.length := by
  simp only [poke, List.length_append, List.length_take, List.length_drop]
  omega

theorem poke_zero (b : Buf) (s : List Char) (h : s.length ≤ b.length) :
    poke b 0 s = s ++ b.drop s.length := by
  simp [poke, List.take_of_length_le h]

theorem cstr_append_NUL (s t : List Char) (h : NUL ∉ s) : cstr (s ++ NUL :: t) = s := by
  induction s with
  | nil => simp [cstr]
  | cons c cs ih =>
    have hc : c ≠ NUL := fun e => h (by simp [e])
    have hcs : NUL ∉ cs := fun e => h (by simp [e])
    have := ih hcs
    simp only [cstr] at this
    simp [cstr, hc, this]

theorem cstr_of_not_mem (s : List Char) (h : NUL ∉ s) : cstr s = s := by
  induction s with
  | nil => simp [cstr]
  | cons c cs ih =>
    have hc : c ≠ NUL := fun e => h (by simp [e])
    have hcs : NUL ∉ cs := fun e => h (by simp [e])
    have h2 := ih hcs
    simp only [cstr] at h2
    simp [cstr, hc, h2]

theorem NUL_not_mem_cstr (b : Buf) : NUL ∉ cstr b := by
  intro h
  have := List.mem_takeWhile_imp h
  simp at this

theorem cstr_length_le (b : Buf) : (cstr b).length ≤ b.length := by
  exact (List.takeWhile_sublist (fun c => c != NUL)).length_le

theorem snprintf_fst_short (buf : Buf) (size : Nat) (out : List Char)
    (h1 : out.length < size) (h2 : size ≤ buf.length) :
    (snprintf buf size out).1 = out ++ NUL :: buf.drop (out.length + 1) := by
  have hs : size ≠ 0 := by omega
  have ht : out.take (size - 1) = out := List.take_of_length_le (by omega)
  simp only [snprintf, hs, if_false, ht]
  rw [poke_zero _ _ (by
    simp only [List.length_append, List.length_take, List.length_cons, List.length_nil]
    omega)]
  simp

theorem snprintf_fst_long (buf : Buf) (size : Nat) (out : List Char)
    (h0 : 0 < size) (h1 : size ≤ out.length + 1) (h2 : size ≤ buf.length) :
    (snprintf buf size out).1 = out.take (size - 1) ++ NUL :: buf.drop size := by
  have hs : size ≠ 0 := by omega
  simp only [snprintf, hs, if_false]
  rw [poke_zero _ _ (by
    simp only [List.length_append, List.length_take, List.length_cons, List.length_nil]
    omega)]
  have : min (size - 1) out.length + 1 = size := by omega
  simp [this]

theorem snprintf_snd (buf : Buf) (size : Nat) (out : List Char) (h : out.length ≤ INT_MAX) :
    (snprintf buf size out).2 = (out.length : Int) := by
  simp [snprintf, h]

/-- A frame shorter than the array goes out as it is. -/
theorem putlog_short (junk : List Char) (ok : Bool) (log : mysyslog) (message : List Char)
    (hfd : log.fifo_fd ≠ -1) (hlen : (frame log message).length < MYSYSLOG_FIFO_BUFSIZE) :
    putlog junk ok log message
      = some (write ok (frame log message) (frame log message).length) := by
  have hi : (frame log message).length ≤ INT_MAX := by
    simp only [MYSYSLOG_FIFO_BUFSIZE, INT_MAX] at *; omega
  have hfst := snprintf_fst_short (alloc MYSYSLOG_FIFO_BUFSIZE junk) MYSYSLOG_FIFO_BUFSIZE
    (frame log message) hlen (by rw [alloc_length])
  have hsnd := snprintf_snd (alloc MYSYSLOG_FIFO_BUFSIZE junk) MYSYSLOG_FIFO_BUFSIZE
    (frame log message) hi
  have hn : ¬ ((frame log message).length : Int) < 0 := by omega
  have hn2 : ¬ ((frame log message).length : Int) ≥ (MYSYSLOG_FIFO_BUFSIZE : Int) := by omega
  rcases hx : snprintf (alloc MYSYSLOG_FIFO_BUFSIZE junk) MYSYSLOG_FIFO_BUFSIZE
    (frame log message) with ⟨b, n⟩
  rw [hx] at hfst hsnd
  simp only at hfst hsnd
  subst hfst hsnd
  simp only [putlog, hfd, if_false, hx, hn, hn2, Int.toNat_ofNat]
  cases ok <;> simp [write]

/-- A frame that does not fit the array goes out as its first 4091 bytes,
the marker, the line terminator and the string terminator. -/
theorem putlog_long (junk : List Char) (ok : Bool) (log : mysyslog) (message : List Char)
    (hfd : log.fifo_fd ≠ -1) (hlen : MYSYSLOG_FIFO_BUFSIZE ≤ (frame log message).length)
    (hi : (frame log message).length ≤ INT_MAX) :
    putlog junk ok log message
      = some (write ok ((frame log message).take 4091 ++ "...\n".toList ++ [NUL])
          MYSYSLOG_FIFO_BUFSIZE) := by
  have hfst := snprintf_fst_long (alloc MYSYSLOG_FIFO_BUFSIZE junk) MYSYSLOG_FIFO_BUFSIZE
    (frame log message) (by decide) (by omega) (by rw [alloc_length])
  have hsnd := snprintf_snd (alloc MYSYSLOG_FIFO_BUFSIZE junk) MYSYSLOG_FIFO_BUFSIZE
    (frame log message) hi
  have hn : ¬ ((frame log message).length : Int) < 0 := by omega
  have hn2 : ((frame log message).length : Int) ≥ (MYSYSLOG_FIFO_BUFSIZE : Int) := by omega
  rcases hx : snprintf (alloc MYSYSLOG_FIFO_BUFSIZE junk) MYSYSLOG_FIFO_BUFSIZE
    (frame log message) with ⟨b, n⟩
  rw [hx] at hfst hsnd
  simp only at hfst hsnd
  subst hfst hsnd
  simp only [putlog, hfd, if_false, hx, hn, hn2, if_true]
  congr 2
  have hd : List.drop MYSYSLOG_FIFO_BUFSIZE (alloc MYSYSLOG_FIFO_BUFSIZE junk) = [] :=
    List.drop_of_length_le (by rw [alloc_length])
  have hc : cstr "...\n".toList = "...\n".toList := by decide
  rw [hd, strcpy, hc]
  simp only [MYSYSLOG_FIFO_BUFSIZE] at hlen ⊢
  simp only [poke, List.length_append, List.length_take, List.length_cons, List.length_nil]
  have e1 : min (4096 - 1) (frame log message).length + (0 + 1) = 4096 := by omega
  rw [e1]
  have e2 : List.take (4096 - 5) (List.take (4096 - 1) (frame log message) ++ [NUL])
      = List.take 4091 (frame log message) := by
    rw [List.take_append_of_le_length (by
      simp only [List.length_append, List.length_take, List.length_cons, List.length_nil]
      omega), List.take_take]
    congr 1
  rw [e2]
  have e4 : "...\n".toList.length = 4 := by decide
  have e3 : List.drop (4096 - 5 + ("...\n".toList.length + 1))
      (List.take (4096 - 1) (frame log message) ++ [NUL]) = [] :=
    List.drop_of_length_le (by
      simp only [List.length_append, List.length_take, List.length_cons, List.length_nil, e4]
      omega)
  rw [e3]
  simp

theorem cstr_replicate (n : Nat) (c : Char) (hc : c ≠ NUL) :
    cstr (List.replicate n c) = List.replicate n c := by
  apply cstr_of_not_mem
  intro h
  exact hc (List.eq_of_mem_replicate h).symm

theorem frame_app42_length (n : Nat) :
    (frame app42 (List.replicate n 'x')).length = n + 8 := by
  have h1 : cstr app42.pname = "app".toList := by decide
  have h2 : fmt_d app42.pid = "42".toList := by decide
  rw [frame, cstr_replicate n 'x' (by decide), h1, h2]
  simp

theorem frame_getLast (log : mysyslog) (message : List Char) :
    (frame log message).getLast? = some NL := by
  have h : frame log message
      = (cstr log.pname ++ '/' :: fmt_d log.pid ++ ' ' :: cstr message) ++ [NL] := by
    simp [frame]
  rw [h, List.getLast?_concat]

theorem truncated_length (log : mysyslog) (message : List Char)
    (hlen : MYSYSLOG_FIFO_BUFSIZE ≤ (frame log message).length) :
    (truncated log message).length = 4096 := by
  have e4 : "...\n".toList.length = 4 := by decide
  simp only [truncated, List.length_append, List.length_take, List.length_cons,
    List.length_nil, e4]
  simp only [MYSYSLOG_FIFO_BUFSIZE] at hlen
  omega

theorem putlog_long_ok (junk : List Char) (log : mysyslog) (message : List Char)
    (hfd : log.fifo_fd ≠ -1) (hlen : MYSYSLOG_FIFO_BUFSIZE ≤ (frame log message).length)
    (hi : (frame log message).length ≤ INT_MAX) :
    putlog junk true log message = some (truncated log message, 4096) := by
  rw [putlog_long junk true log message hfd hlen hi]
  simp only [write, if_true, MYSYSLOG_FIFO_BUFSIZE]
  have hl := truncated_length log message hlen
  rw [truncated] at hl
  rw [List.take_of_length_le (le_of_eq hl)]
  rfl

/-! ## The emitter: truncation and framing -/

/-- C1 (the code departs from it): for every handle with an open FIFO and
every frame longer than `MYSYSLOG_FIFO_BUFSIZE` (and short enough for
`snprintf` to count), `putlog` writes 4096 bytes that are the first 4091 bytes
of the frame, the marker `...`, the line terminator and then the string
terminator: the last byte written is NUL, not the line terminator. -/
theorem putlog_truncated_frame_ends_with_NUL (junk : List Char) (log : mysyslog)
    (message : List Char) (hfd : log.fifo_fd ≠ -1)
    (hlen : MYSYSLOG_FIFO_BUFSIZE < (frame log message).length)
    (hi : (frame log message).length ≤ INT_MAX) :
    ∃ w, putlog junk true log message = some (w, 4096) ∧ w.length = 4096 ∧
      w = (frame log message).take 4091 ++ "...\n".toList ++ [NUL] ∧
      w.getLast? = some NUL ∧ w.getLast? ≠ some NL := by
  refine ⟨truncated log message, putlog_long_ok junk log message hfd (le_of_lt hlen) hi,
    truncated_length log message (le_of_lt hlen), rfl, ?_, ?_⟩
  · rw [truncated, List.getLast?_concat]
  · rw [truncated, List.getLast?_concat]
    decide

/-- C1, at a failing input: name `app`, pid 42 and a message of 5000 bytes
`x`.  The frame has 5008 bytes; the 4096 bytes written end with NUL. -/
theorem putlog_truncated_frame_ends_with_NUL_witness :
    ∃ w, putlog [] true app42 (List.replicate 5000 'x') = some (w, 4096) ∧ w.length = 4096 ∧
      w = (frame app42 (List.replicate 5000 'x')).take 4091 ++ "...\n".toList ++ [NUL] ∧
      w.getLast? = some NUL ∧ w.getLast? ≠ some NL :=
  putlog_truncated_frame_ends_with_NUL [] app42 (List.replicate 5000 'x') (by decide)
    (by rw [frame_app42_length]; decide) (by rw [frame_app42_length]; decide)

/-- C2, as stated, fails: the frame of name `app`, pid 42 and a message of
4088 bytes `x` has exactly 4096 bytes, and `putlog` does not write it
unmodified. -/
theorem putlog_frame_of_bufsize_is_truncated :
    (frame app42 (List.replicate 4088 'x')).length ≤ 4096 ∧
    ∃ w r, putlog [] true app42 (List.replicate 4088 'x') = some (w, r) ∧
      w ≠ frame app42 (List.replicate 4088 'x') := by
  have hl : MYSYSLOG_FIFO_BUFSIZE ≤ (frame app42 (List.replicate 4088 'x')).length := by
    rw [frame_app42_length]; decide
  refine ⟨by rw [frame_app42_length], truncated app42 (List.replicate 4088 'x'), 4096,
    putlog_long_ok [] app42 _ (by decide) hl (by rw [frame_app42_length]; decide), ?_⟩
  intro h
  have h2 := congrArg List.getLast? h
  rw [frame_getLast, truncated, List.getLast?_concat] at h2
  exact absurd h2 (by decide)

/-- C2, amended: for every handle with an open FIFO whose write goes through
and every name, pid and message whose frame `name/pid message\n` is shorter
than `MYSYSLOG_FIFO_BUFSIZE` (at most 4095 bytes), `putlog` writes exactly
the bytes of the frame and returns its length. -/
theorem putlog_writes_frame_below_bufsize (junk : List Char) (log : mysyslog)
    (message : List Char) (hfd : log.fifo_fd ≠ -1)
    (hlen : (frame log message).length < MYSYSLOG_FIFO_BUFSIZE) :
    putlog junk true log message
      = some (frame log message, ((frame log message).length : Int)) := by
  rw [putlog_short junk true log message hfd hlen]
  simp [write]

/-- C2, amended, at name `app`, pid 42 and the message `hello`. -/
theorem putlog_writes_frame_below_bufsize_witness :
    putlog [] true app42 "hello".toList = some ("app/42 hello\n".toList, 13) :=
  putlog_writes_frame_below_bufsize [] app42 "hello".toList (by decide) (by decide)

/-! ## The listener: one line per call -/

theorem takeLine_line (n : Nat) (body rest : List Char) (hnl : NL ∉ body)
    (hlen : body.length < n) : takeLine n (body ++ NL :: rest) = body ++ [NL] := by
  induction body generalizing n with
  | nil =>
    cases n with
    | zero => omega
    | succ n => simp [takeLine]
  | cons c cs ih =>
    cases n with
    | zero => omega
    | succ n =>
      have hc : c ≠ NL := fun e => hnl (by simp [e])
      have hcs : NL ∉ cs := fun e => hnl (by simp [e])
      simp only [List.length_cons] at hlen
      simp [takeLine, hc, ih n hcs (by omega)]

theorem takeLine_length_le (n : Nat) (s : List Char) : (takeLine n s).length ≤ n := by
  induction n generalizing s with
  | zero => simp [takeLine]
  | succ n ih =>
    cases s with
    | nil => simp [takeLine]
    | cons c cs =>
      simp only [takeLine]
      split
      · simp
      · simpa using ih cs

/-- A whole line that fits the array is read in one call. -/
theorem read_msg_line (buf : Buf) (body rest : List Char)
    (hb : buf.length = MYSYSLOG_FIFO_BUFSIZE) (hnl : NL ∉ body)
    (hlen : body.length + 1 < MYSYSLOG_FIFO_BUFSIZE) :
    read_msg buf (body ++ NL :: rest)
      = (body ++ NL :: NUL :: buf.drop (body.length + 2), rest,
          strlen (body ++ NL :: NUL :: buf.drop (body.length + 2))) := by
  have hne : body ++ NL :: rest = (body ++ NL :: rest).head (by simp) ::
      (body ++ NL :: rest).tail := (List.head_cons_tail _ _).symm
  have ht : takeLine (MYSYSLOG_FIFO_BUFSIZE - 1) (body ++ NL :: rest) = body ++ [NL] :=
    takeLine_line _ body rest hnl (by omega)
  have hp : poke buf 0 (body ++ [NL] ++ [NUL])
      = body ++ NL :: NUL :: buf.drop (body.length + 2) := by
    rw [poke_zero _ _ (by simp only [List.length_append, List.length_cons, List.length_nil]; omega)]
    simp
  have hd : (body ++ NL :: rest).drop (body ++ [NL]).length = rest := by
    have : body ++ NL :: rest = (body ++ [NL]) ++ rest := by simp
    rw [this, List.drop_left]
  have hf : fgets buf MYSYSLOG_FIFO_BUFSIZE (body ++ NL :: rest)
      = (some (body ++ NL :: NUL :: buf.drop (body.length + 2)), rest) := by
    rw [hne, fgets, ← hne]
    simp only [ht, hp, hd]
  simp only [read_msg, hf]

theorem cstr_line (body t : List Char) (h : NUL ∉ body) :
    cstr (body ++ NL :: NUL :: t) = body ++ [NL] := by
  have h2 : NUL ∉ body ++ [NL] := by
    simp only [List.mem_append, List.mem_singleton, not_or]
    exact ⟨h, by decide⟩
  have := cstr_append_NUL (body ++ [NL]) t h2
  simpa using this

theorem cstr_NUL_cons (t : List Char) : cstr (NUL :: t) = [] := by
  simp [cstr]

theorem frame_app42_eq (message : List Char) :
    frame app42 message = "app/42 ".toList ++ cstr message ++ [NL] := by
  have h1 : cstr app42.pname = "app".toList := by decide
  have h2 : fmt_d app42.pid = "42".toList := by decide
  rw [frame, h1, h2]
  simp

theorem truncated_app42 (n : Nat) (h : 4084 ≤ n) :
    truncated app42 (List.replicate n 'x')
      = ("app/42 ".toList ++ List.replicate 4084 'x' ++ "...".toList) ++ NL :: [NUL] := by
  have e7 : "app/42 ".toList.length = 7 := by decide
  have ht : (frame app42 (List.replicate n 'x')).take 4091
      = "app/42 ".toList ++ List.replicate 4084 'x' := by
    rw [frame_app42_eq, cstr_replicate n 'x' (by decide), List.append_assoc,
      List.take_append_eq_append_take, List.take_of_length_le (by rw [e7]; omega), e7,
      List.take_append_eq_append_take, List.take_replicate, List.length_replicate]
    have e1 : min (4091 - 7) n = 4084 := by omega
    have e2 : 4091 - 7 - n = 0 := by omega
    rw [e1, e2, List.take_zero, List.append_nil]
  have hm : "...\n".toList = "...".toList ++ [NL] := by decide
  rw [truncated, ht, hm]
  simp only [List.append_assoc, List.cons_append, List.nil_append]

theorem NL_not_mem_app42_body :
    NL ∉ "app/42 ".toList ++ List.replicate 4084 'x' ++ "...".toList := by
  simp only [List.mem_append, List.mem_replicate, not_or]
  exact ⟨⟨by decide, fun h => absurd h.2 (by decide)⟩, by decide⟩

theorem NUL_not_mem_app42_body :
    NUL ∉ "app/42 ".toList ++ List.replicate 4084 'x' ++ "...".toList := by
  simp only [List.mem_append, List.mem_replicate, not_or]
  exact ⟨⟨by decide, fun h => absurd h.2 (by decide)⟩, by decide⟩

theorem app42_body_length :
    ("app/42 ".toList ++ List.replicate 4084 'x' ++ "...".toList).length = 4094 := by
  have e7 : "app/42 ".toList.length = 7 := by decide
  have e3 : "...".toList.length = 3 := by decide
  simp only [List.length_append, List.length_replicate, e7, e3]

/-! ## The listener after a truncated frame -/

/-- C10 (the code departs from it): two `putlog` calls on the handle `app`/42,
the first with a message of 5000 bytes `x` (a truncated frame), the second
with `hello`.  On the concatenation of what they write, the first `read_msg`
returns the 4095 bytes of the truncated line, the second returns 0 (an empty
message) and leaves nothing to read: the frame of `hello` is consumed without
yielding a message. -/
theorem frame_after_truncated_frame_is_lost :
    ∃ w1 w2, putlog [] true app42 (List.replicate 5000 'x') = some (w1, 4096) ∧
      putlog [] true app42 "hello".toList = some (w2, 13) ∧
      w2 = "app/42 hello\n".toList ∧
      (read_msg (alloc MYSYSLOG_FIFO_BUFSIZE []) (w1 ++ w2)).2.2 = 4095 ∧
      (read_msg (read_msg (alloc MYSYSLOG_FIFO_BUFSIZE []) (w1 ++ w2)).1
        (read_msg (alloc MYSYSLOG_FIFO_BUFSIZE []) (w1 ++ w2)).2.1).2.2 = 0 ∧
      (read_msg (read_msg (alloc MYSYSLOG_FIFO_BUFSIZE []) (w1 ++ w2)).1
        (read_msg (alloc MYSYSLOG_FIFO_BUFSIZE []) (w1 ++ w2)).2.1).2.1 = [] := by
  have hl : MYSYSLOG_FIFO_BUFSIZE ≤ (frame app42 (List.replicate 5000 'x')).length := by
    rw [frame_app42_length]; decide
  have h1 := putlog_long_ok [] app42 (List.replicate 5000 'x') (by decide) hl
    (by rw [frame_app42_length]; decide)
  have h2 : putlog [] true app42 "hello".toList = some ("app/42 hello\n".toList, 13) := by
    rw [putlog_short [] true app42 "hello".toList (by decide) (by decide)]
    rfl
  refine ⟨_, _, h1, h2, rfl, ?_⟩
  have hs : truncated app42 (List.replicate 5000 'x') ++ "app/42 hello\n".toList
      = ("app/42 ".toList ++ List.replicate 4084 'x' ++ "...".toList)
          ++ NL :: (NUL :: "app/42 hello\n".toList) := by
    rw [truncated_app42 5000 (by omega)]
    simp only [List.append_assoc, List.cons_append, List.nil_append]
  have hr1 := read_msg_line (alloc MYSYSLOG_FIFO_BUFSIZE [])
    ("app/42 ".toList ++ List.replicate 4084 'x' ++ "...".toList)
    (NUL :: "app/42 hello\n".toList) (alloc_length _ _) NL_not_mem_app42_body
    (by rw [app42_body_length]; decide)
  rw [hs, hr1]
  have hs2 : NUL :: "app/42 hello\n".toList = (NUL :: "app/42 hello".toList) ++ NL :: [] := by
    decide
  have hb : (("app/42 ".toList ++ List.replicate 4084 'x' ++ "...".toList) ++ NL :: NUL ::
      (alloc MYSYSLOG_FIFO_BUFSIZE []).drop
        (("app/42 ".toList ++ List.replicate 4084 'x' ++ "...".toList).length + 2)).length
      = MYSYSLOG_FIFO_BUFSIZE := by
    rw [List.length_append, app42_body_length]
    simp only [List.length_cons, List.length_drop, alloc_length, MYSYSLOG_FIFO_BUFSIZE]
  have hr2 := read_msg_line _ (NUL :: "app/42 hello".toList) [] hb (by decide) (by decide)
  refine ⟨?_, ?_, ?_⟩
  · simp only [strlen, cstr_line _ _ NUL_not_mem_app42_body]
    rw [List.length_append, app42_body_length]
    rfl
  · simp only
    rw [hs2, hr2]
    simp only [strlen, List.cons_append, cstr_NUL_cons, List.length_nil]
  · simp only
    rw [hs2, hr2]

/-! ## The dispatch loop -/

theorem cstr_append_NUL_length_le (s t : List Char) :
    (cstr (s ++ NUL :: t)).length ≤ s.length := by
  induction s with
  | nil => simp [cstr]
  | cons c cs ih =>
    simp only [cstr, List.cons_append, List.takeWhile_cons]
    split
    · simpa [cstr] using ih
    · simp

theorem slot_free_iff (pool : List Buf) (i : Nat) :
    slot_free pool i = true ↔ ∃ t, pool.getD i [] = NUL :: t := by
  simp only [slot_free, beq_iff_eq]
  cases h : pool.getD i [] with
  | nil => simp
  | cons c t => simp

theorem slot_free_lt (pool : List Buf) (i : Nat) (h : slot_free pool i = true) :
    i < pool.length := by
  by_contra hn
  rw [slot_free_iff] at h
  obtain ⟨t, ht⟩ := h
  rw [List.getD_eq_default _ _ (by omega)] at ht
  cases ht

theorem getD_set_self (pool : List Buf) (i : Nat) (x : Buf) (h : i < pool.length) :
    (pool.set i x).getD i [] = x := by
  simp [List.getD_eq_getElem?_getD, List.getElem?_set, h]

theorem getD_set_ne (pool : List Buf) (i j : Nat) (x : Buf) (h : j ≠ i) :
    (pool.set i x).getD j [] = pool.getD j [] := by
  simp [List.getD_eq_getElem?_getD, List.getElem?_set, Ne.symm h]

theorem getD_mem (pool : List Buf) (i : Nat) (h : i < pool.length) :
    pool.getD i [] ∈ pool := by
  rw [List.getD_eq_getElem _ _ h]
  exact List.getElem_mem h

theorem for_loop_found (buf : Buf) (n i0 i : Nat) (pool : List Buf) (threads : List Nat)
    (h0 : i0 ≤ i) (h1 : i < i0 + n) (hf : slot_free pool i = true)
    (hb : ∀ j, i0 ≤ j → j < i → slot_free pool j = false) :
    for_loop buf n i0 pool threads
      = (pool.set i (strcpy (pool.getD i []) 0 buf), threads ++ [i], i) := by
  induction n generalizing i0 with
  | zero => omega
  | succ n ih =>
    by_cases e : i0 = i
    · subst e
      simp [for_loop, hf]
    · have hlt : i0 < i := by omega
      have hnf := hb i0 (le_refl _) hlt
      simp only [for_loop, hnf]
      simp only [Bool.false_eq_true, if_false]
      exact ih (i0 + 1) (by omega) (by omega) (fun j hj1 hj2 => hb j (by omega) hj2)

theorem for_loop_none (buf : Buf) (n i0 : Nat) (pool : List Buf) (threads : List Nat)
    (hb : ∀ j, i0 ≤ j → j < i0 + n → slot_free pool j = false) :
    for_loop buf n i0 pool threads = (pool, threads, i0 + n) := by
  induction n generalizing i0 with
  | zero => simp [for_loop]
  | succ n ih =>
    have hnf := hb i0 (le_refl _) (by omega)
    simp only [for_loop, hnf]
    rw [ih (i0 + 1) (fun j hj1 hj2 => hb j (by omega) (by omega))]
    have e : i0 + 1 + n = i0 + (n + 1) := by omega
    rw [e]
    simp

/-- What `read_msg` leaves in the array: the array keeps its size, holds a
string of at most 4095 bytes, and the value returned is its length. -/
theorem read_msg_buf (buf : Buf) (fd : List Char) (hb : buf.length = MYSYSLOG_FIFO_BUFSIZE) :
    (read_msg buf fd).1.length = MYSYSLOG_FIFO_BUFSIZE ∧
    strlen (read_msg buf fd).1 < MYSYSLOG_FIFO_BUFSIZE ∧
    (read_msg buf fd).2.2 = strlen (read_msg buf fd).1 := by
  cases fd with
  | nil =>
    have hp : poke buf 0 [NUL] = NUL :: buf.drop 1 := by
      rw [poke_zero _ _ (by simp only [List.length_cons, List.length_nil]; rw [hb]; decide)]
      rfl
    simp only [read_msg, fgets]
    refine ⟨by rw [poke_length, hb], ?_, ?_⟩
    · rw [hp, strlen, cstr_NUL_cons]; decide
    · rw [hp, strlen, cstr_NUL_cons]; rfl
  | cons c cs =>
    simp only [read_msg, fgets]
    refine ⟨by rw [poke_length, hb], ?_, trivial⟩
    have hl := takeLine_length_le (MYSYSLOG_FIFO_BUFSIZE - 1) (c :: cs)
    rw [poke_zero _ _ (by
      simp only [List.length_append, List.length_cons, List.length_nil, hb]
      simp only [MYSYSLOG_FIFO_BUFSIZE] at hl ⊢
      omega)]
    rw [strlen, List.append_assoc]
    have := cstr_append_NUL_length_le (takeLine (MYSYSLOG_FIFO_BUFSIZE - 1) (c :: cs))
      ([] ++ buf.drop (takeLine (MYSYSLOG_FIFO_BUFSIZE - 1) (c :: cs) ++ [NUL]).length)
    simp only [List.singleton_append, List.nil_append] at this ⊢
    simp only [MYSYSLOG_FIFO_BUFSIZE] at hl this ⊢
    omega

/-- A `strcpy` of a string that fits a slot: the slot then holds that string. -/
theorem strcpy_slot (slot buf : Buf) (hs : slot.length = LOG_WRITER_BUFSIZE)
    (hb : strlen buf < MYSYSLOG_FIFO_BUFSIZE) :
    strcpy slot 0 buf = cstr buf ++ NUL :: slot.drop (strlen buf + 1) ∧
    cstr (strcpy slot 0 buf) = cstr buf := by
  have h : strcpy slot 0 buf = cstr buf ++ NUL :: slot.drop (strlen buf + 1) := by
    rw [strcpy, poke_zero _ _ (by
      simp only [List.length_append, List.length_cons, List.length_nil, hs]
      simp only [strlen, MYSYSLOG_FIFO_BUFSIZE, LOG_WRITER_BUFSIZE, TIMESTAMP_BUFSIZE] at hb ⊢
      omega)]
    simp [strlen]
  exact ⟨h, by rw [h, cstr_append_NUL _ _ (NUL_not_mem_cstr buf)]⟩

theorem loop_body_found (d : Daemon) (i : Nat) (hL : (read_msg d.buf d.fifo).2.2 ≠ 0)
    (hi : i < MAXTHREADS) (hf : slot_free d.logmsg_buffer i = true)
    (hb : ∀ j, j < i → slot_free d.logmsg_buffer j = false) :
    loop_body d =
      { buf := (read_msg d.buf d.fifo).1, fifo := (read_msg d.buf d.fifo).2.1,
        logmsg_buffer := d.logmsg_buffer.set i
          (strcpy (d.logmsg_buffer.getD i []) 0 (read_msg d.buf d.fifo).1),
        threads := d.threads ++ [i], ignored := d.ignored } := by
  rcases h : read_msg d.buf d.fifo with ⟨b, f, L⟩
  rw [h] at hL
  simp only at hL
  have hfl := for_loop_found b MAXTHREADS 0 i d.logmsg_buffer d.threads (Nat.zero_le _)
    (by omega) hf (fun j _ hj => hb j hj)
  have hne : i ≠ MAXTHREADS := by omega
  simp only [loop_body, h, hL, ne_eq, not_false_eq_true, if_true, hfl, hne, if_false]

theorem loop_body_full (d : Daemon) (hL : (read_msg d.buf d.fifo).2.2 ≠ 0)
    (hb : ∀ j, j < MAXTHREADS → slot_free d.logmsg_buffer j = false) :
    loop_body d =
      { buf := (read_msg d.buf d.fifo).1, fifo := (read_msg d.buf d.fifo).2.1,
        logmsg_buffer := d.logmsg_buffer, threads := d.threads,
        ignored := d.ignored ++ [cstr (read_msg d.buf d.fifo).1] } := by
  rcases h : read_msg d.buf d.fifo with ⟨b, f, L⟩
  rw [h] at hL
  simp only at hL
  have hfl := for_loop_none b MAXTHREADS 0 d.logmsg_buffer d.threads
    (fun j _ hj => hb j (by omega))
  simp only [loop_body, h, hL, ne_eq, not_false_eq_true, if_true, hfl, Nat.zero_add]

theorem loop_body_empty (d : Daemon) (hL : (read_msg d.buf d.fifo).2.2 = 0) :
    loop_body d = { d with buf := (read_msg d.buf d.fifo).1,
                           fifo := (read_msg d.buf d.fifo).2.1 } := by
  rcases h : read_msg d.buf d.fifo with ⟨b, f, L⟩
  rw [h] at hL
  simp only at hL
  simp only [loop_body, h, hL, ne_eq, not_true_eq_false, if_false]

/-- C4: one round of the main loop in which `read_msg` returns a message
(a non-zero length), on a daemon whose arrays have their declared sizes.
If slot `i` is the free slot of lowest index, the message is copied into slot
`i`, one worker is created, for slot `i`, every other slot is unchanged and
nothing is reported as ignored.  If none of the `MAXTHREADS` slots is free,
the slots are unchanged, no worker is created and the message is reported as
ignored. -/
theorem dispatch_one_message (d : Daemon) (hwf : well_formed d)
    (hL : (read_msg d.buf d.fifo).2.2 ≠ 0) :
    (∀ i, i < MAXTHREADS → slot_free d.logmsg_buffer i = true →
      (∀ j, j < i → slot_free d.logmsg_buffer j = false) →
        cstr ((loop_body d).logmsg_buffer.getD i []) = cstr (read_msg d.buf d.fifo).1 ∧
        (loop_body d).threads = d.threads ++ [i] ∧
        (∀ j, j ≠ i → (loop_body d).logmsg_buffer.getD j [] = d.logmsg_buffer.getD j []) ∧
        (loop_body d).logmsg_buffer.length = d.logmsg_buffer.length ∧
        (loop_body d).ignored = d.ignored) ∧
    ((∀ i, i < MAXTHREADS → slot_free d.logmsg_buffer i = false) →
        (loop_body d).logmsg_buffer = d.logmsg_buffer ∧
        (loop_body d).threads = d.threads ∧
        (loop_body d).ignored = d.ignored ++ [cstr (read_msg d.buf d.fifo).1]) := by
  obtain ⟨hbuf, hlen, hslots⟩ := hwf
  constructor
  · intro i hi hf hb
    rw [loop_body_found d i hL hi hf hb]
    have hlt := slot_free_lt _ _ hf
    refine ⟨?_, rfl, ?_, ?_, rfl⟩
    · simp only
      rw [getD_set_self _ _ _ hlt]
      exact (strcpy_slot _ _ (hslots _ (getD_mem _ _ hlt)) (read_msg_buf _ _ hbuf).2.1).2
    · intro j hj
      simp only
      exact getD_set_ne _ _ _ _ hj
    · simp
  · intro hb
    rw [loop_body_full d hL hb]
    exact ⟨rfl, rfl, rfl⟩

/-! ## The capacity of the pool -/

theorem is_line_body (l : List Char) (h : is_line l) :
    ∃ body, l = body ++ [NL] ∧ NL ∉ body ∧ NUL ∉ body ∧
      body.length + 1 < MYSYSLOG_FIFO_BUFSIZE := by
  obtain ⟨h1, h2, h3, h4⟩ := h
  have hl : l = l.dropLast ++ [NL] := by
    have := List.dropLast_append_getLast? NL (by rw [h1]; exact rfl)
    exact this.symm
  refine ⟨l.dropLast, hl, h2, ?_, ?_⟩
  · intro hm
    exact h3 (List.dropLast_subset l hm)
  · have := congrArg List.length hl
    simp only [List.length_append, List.length_cons, List.length_nil] at this
    omega

theorem cstr_of_slot_free (pool : List Buf) (j : Nat) (h : slot_free pool j = true) :
    cstr (pool.getD j []) = [] := by
  obtain ⟨t, ht⟩ := (slot_free_iff pool j).1 h
  rw [ht, cstr_NUL_cons]

theorem slot_busy_of_cstr (pool : List Buf) (j : Nat) (h : cstr (pool.getD j []) ≠ []) :
    slot_free pool j = false := by
  cases hf : slot_free pool j with
  | false => rfl
  | true => exact absurd (cstr_of_slot_free pool j hf) h

theorem slot_free_set_ne (pool : List Buf) (i j : Nat) (x : Buf) (h : j ≠ i) :
    slot_free (pool.set i x) j = slot_free pool j := by
  simp only [slot_free, getD_set_ne pool i j x h]

theorem well_formed_set (d : Daemon) (hwf : well_formed d) (b : Buf) (f : List Char)
    (i : Nat) (x : Buf) (t : List Nat) (g : List (List Char))
    (hb : b.length = MYSYSLOG_FIFO_BUFSIZE) (hx : x.length = LOG_WRITER_BUFSIZE) :
    well_formed { buf := b, fifo := f, logmsg_buffer := d.logmsg_buffer.set i x,
                  threads := t, ignored := g } := by
  obtain ⟨_, h2, h3⟩ := hwf
  refine ⟨hb, by simpa using h2, ?_⟩
  intro y hy
  rcases List.mem_or_eq_of_mem_set hy with h | h
  · exact h3 y h
  · rw [h]; exact hx

theorem getD_append_lt (done : List (List Char)) (l : List Char) (j : Nat)
    (h : j < done.length) : (done ++ [l]).getD j [] = done.getD j [] := by
  simp [List.getD_eq_getElem?_getD, List.getElem?_append_left h]

theorem getD_append_length (done : List (List Char)) (l : List Char) :
    (done ++ [l]).getD done.length [] = l := by
  simp [List.getD_eq_getElem?_getD]

/-- What one round of the main loop sees when the FIFO starts with a line. -/
theorem read_msg_is_line (buf : Buf) (l rest : List Char)
    (hb : buf.length = MYSYSLOG_FIFO_BUFSIZE) (hl : is_line l) :
    cstr (read_msg buf (l ++ rest)).1 = l ∧ (read_msg buf (l ++ rest)).2.1 = rest ∧
    (read_msg buf (l ++ rest)).2.2 = l.length := by
  obtain ⟨body, hbody, hnl, hnul, hlen⟩ := is_line_body l hl
  have e : l ++ rest = body ++ NL :: rest := by rw [hbody]; simp
  have hr := read_msg_line buf body rest hb hnl hlen
  have hc := cstr_line body (buf.drop (body.length + 2)) hnul
  rw [e, hr]
  refine ⟨?_, rfl, ?_⟩
  · rw [hc, hbody]
  · simp only [strlen, hc, hbody]

theorem dispatched_step (done rest : List (List Char)) (l : List Char) (d : Daemon)
    (hinv : dispatched done (l :: rest) d) (hl : is_line l)
    (hdone : ∀ j, j < done.length → done.getD j [] ≠ []) :
    dispatched (done ++ [l]) rest (loop_body d) := by
  obtain ⟨hwf, hfifo, hthr, hign, hslots, hfree⟩ := hinv
  have hwf2 := hwf
  obtain ⟨hbuf, hplen, hsl⟩ := hwf2
  rw [List.flatten_cons] at hfifo
  obtain ⟨hr1, hr2, hr3⟩ := read_msg_is_line d.buf l rest.flatten hbuf hl
  rw [← hfifo] at hr1 hr2 hr3
  have hrb := read_msg_buf d.buf d.fifo hbuf
  have hlne : l ≠ [] := by
    obtain ⟨body, hbody, _⟩ := is_line_body l hl
    rw [hbody]; simp
  have hL : (read_msg d.buf d.fifo).2.2 ≠ 0 := by
    rw [hr3]
    exact fun h => hlne (List.length_eq_zero.1 h)
  have hbusy : ∀ j, j < min done.length MAXTHREADS → slot_free d.logmsg_buffer j = false := by
    intro j hj
    apply slot_busy_of_cstr
    rw [hslots j hj]
    exact hdone j (by omega)
  by_cases hm : done.length < MAXTHREADS
  · have hmin : min done.length MAXTHREADS = done.length := by omega
    have hmin2 : min (done ++ [l]).length MAXTHREADS = done.length + 1 := by
      simp only [List.length_append, List.length_cons, List.length_nil]; omega
    have hf := hfree done.length (by omega) hm
    have hlt := slot_free_lt _ _ hf
    rw [hmin] at hbusy
    rw [loop_body_found d done.length hL hm hf hbusy]
    have hcp := strcpy_slot (d.logmsg_buffer.getD done.length []) (read_msg d.buf d.fifo).1
      (hsl _ (getD_mem _ _ hlt)) hrb.2.1
    refine ⟨well_formed_set d hwf _ _ _ _ _ _ hrb.1 ?_, hr2, ?_, ?_, ?_, ?_⟩
    · rw [strcpy, poke_length]
      exact hsl _ (getD_mem _ _ hlt)
    · simp only
      rw [hthr, hmin, hmin2, List.range_succ]
    · simp only
      rw [hign, List.drop_of_length_le (by omega), List.drop_of_length_le (by
        simp only [List.length_append, List.length_cons, List.length_nil]; omega)]
    · intro j hj
      rw [hmin2] at hj
      simp only
      by_cases e : j = done.length
      · rw [e, getD_set_self _ _ _ hlt, hcp.2, hr1, getD_append_length]
      · rw [getD_set_ne _ _ _ _ e, hslots j (by omega), getD_append_lt _ _ _ (by omega)]
    · intro j hj1 hj2
      rw [hmin2] at hj1
      simp only
      rw [slot_free_set_ne _ _ _ _ (by omega)]
      exact hfree j (by omega) hj2
  · have hmin : min done.length MAXTHREADS = MAXTHREADS := by omega
    have hmin2 : min (done ++ [l]).length MAXTHREADS = MAXTHREADS := by
      simp only [List.length_append, List.length_cons, List.length_nil]; omega
    rw [hmin] at hbusy
    rw [loop_body_full d hL hbusy]
    refine ⟨⟨hrb.1, hplen, hsl⟩, hr2, ?_, ?_, ?_, ?_⟩
    · simp only
      rw [hthr, hmin, hmin2]
    · simp only
      rw [hign, hr1, List.drop_append_of_le_length (by omega)]
    · intro j hj
      rw [hmin2] at hj
      simp only
      rw [hslots j (by omega), getD_append_lt _ _ _ (by omega)]
    · intro j hj1 hj2
      rw [hmin2] at hj1
      omega

theorem dispatched_main_loop (rest : List (List Char)) :
    ∀ (done : List (List Char)) (d : Daemon), dispatched done rest d →
      (∀ l ∈ done, is_line l) → (∀ l ∈ rest, is_line l) →
      dispatched (done ++ rest) [] (main_loop rest.length d) := by
  induction rest with
  | nil =>
    intro done d h _ _
    simpa [main_loop] using h
  | cons l rest ih =>
    intro done d h hd hr
    have hdone : ∀ j, j < done.length → done.getD j [] ≠ [] := by
      intro j hj
      rw [List.getD_eq_getElem _ _ hj]
      obtain ⟨body, hbody, _⟩ := is_line_body _ (hd _ (List.getElem_mem hj))
      rw [hbody]; simp
    have hstep := dispatched_step done rest l d h (hr l (by simp)) hdone
    have := ih (done ++ [l]) (loop_body d) hstep
      (by
        intro x hx
        rcases List.mem_append.1 hx with h1 | h1
        · exact hd x h1
        · rw [List.mem_singleton.1 h1]; exact hr l (by simp))
      (fun x hx => hr x (by simp [hx]))
    simpa [main_loop] using this

theorem create_msgbuf_length (max : Nat) (heap : Nat → List Char) :
    (create_msgbuf max heap).length = max := by
  simp [create_msgbuf]

theorem create_msgbuf_getD (max : Nat) (heap : Nat → List Char) (i : Nat) (h : i < max) :
    (create_msgbuf max heap).getD i []
      = NUL :: (alloc LOG_WRITER_BUFSIZE (heap i)).drop 1 := by
  have hp : poke (alloc LOG_WRITER_BUFSIZE (heap i)) 0 [NUL]
      = NUL :: (alloc LOG_WRITER_BUFSIZE (heap i)).drop 1 := by
    rw [poke_zero _ _ (by rw [alloc_length]; decide)]
    rfl
  rw [List.getD_eq_getElem _ _ (by rw [create_msgbuf_length]; exact h)]
  simp only [create_msgbuf, List.getElem_map, List.getElem_range, hp]

theorem create_msgbuf_free (max : Nat) (heap : Nat → List Char) (i : Nat) (h : i < max) :
    slot_free (create_msgbuf max heap) i = true :=
  (slot_free_iff _ _).2 ⟨_, create_msgbuf_getD max heap i h⟩

theorem main_init_well_formed (junk : List Char) (heap : Nat → List Char) (fifo : List Char) :
    well_formed (main_init junk heap fifo) := by
  refine ⟨alloc_length _ _, create_msgbuf_length _ _, ?_⟩
  intro b hb
  simp only [main_init, create_msgbuf, List.mem_map, List.mem_range] at hb
  obtain ⟨i, _, hi⟩ := hb
  rw [← hi, poke_length, alloc_length]

theorem main_init_dispatched (junk : List Char) (heap : Nat → List Char)
    (lines : List (List Char)) :
    dispatched [] lines (main_init junk heap lines.flatten) := by
  refine ⟨main_init_well_formed _ _ _, rfl, ?_, rfl, ?_, ?_⟩
  · simp [main_init]
  · intro j hj
    simp at hj
  · intro j _ hj
    exact create_msgbuf_free _ _ _ hj

/-- C5: the daemon starts with all `MAXTHREADS` slots free and a FIFO that
holds `k` lines, and runs `k` rounds of its main loop while no worker
returns.  Then workers were created for the slots `0 .. min k 100 - 1` in
that order, slot `j` holds line `j` unmodified for every `j < min k 100`, the
lines from index 100 on, and only they, were reported as ignored, so
`min k 100` lines were accepted and `k - min k 100` dropped, and the FIFO is
empty. -/
theorem capacity_bound (junk : List Char) (heap : Nat → List Char)
    (lines : List (List Char)) (h : ∀ l ∈ lines, is_line l) :
    (main_loop lines.length (main_init junk heap lines.flatten)).threads
      = List.range (min lines.length MAXTHREADS) ∧
    (∀ j, j < min lines.length MAXTHREADS →
      cstr ((main_loop lines.length (main_init junk heap lines.flatten)).logmsg_buffer.getD j [])
        = lines.getD j []) ∧
    (main_loop lines.length (main_init junk heap lines.flatten)).ignored
      = lines.drop MAXTHREADS ∧
    (main_loop lines.length (main_init junk heap lines.flatten)).threads.length
      = min lines.length MAXTHREADS ∧
    (main_loop lines.length (main_init junk heap lines.flatten)).ignored.length
      = lines.length - min lines.length MAXTHREADS ∧
    (main_loop lines.length (main_init junk heap lines.flatten)).fifo = [] := by
  have hd := dispatched_main_loop lines [] _ (main_init_dispatched junk heap lines)
    (by simp) h
  rw [List.nil_append] at hd
  obtain ⟨_, hfifo, hthr, hign, hslots, _⟩ := hd
  refine ⟨hthr, hslots, hign, ?_, ?_, hfifo⟩
  · rw [hthr, List.length_range]
  · rw [hign, List.length_drop]
    omega

theorem stress_lines_length : stress_lines.length = 200 := by
  rw [stress_lines, List.length_replicate]

theorem stress_lines_is_line : ∀ l ∈ stress_lines, is_line l := by
  intro l hl
  rw [stress_lines] at hl
  rw [List.eq_of_mem_replicate hl]
  decide

/-- C5 at the stress test: 200 lines `app/42 hello mysyslog`, 100 slots:
100 workers are created and 100 lines are reported as ignored. -/
theorem capacity_bound_witness :
    (∀ l ∈ stress_lines, is_line l) ∧
    (main_loop stress_lines.length (main_init [] (fun _ => []) stress_lines.flatten)).threads
      = List.range (min stress_lines.length MAXTHREADS) ∧
    (main_loop stress_lines.length
      (main_init [] (fun _ => []) stress_lines.flatten)).threads.length = 100 ∧
    (main_loop stress_lines.length
      (main_init [] (fun _ => []) stress_lines.flatten)).ignored.length = 100 := by
  have h := capacity_bound [] (fun _ => []) stress_lines stress_lines_is_line
  refine ⟨stress_lines_is_line, h.1, ?_, ?_⟩
  · rw [h.2.2.2.1, stress_lines_length]; decide
  · rw [h.2.2.2.2.1, stress_lines_length]; decide

theorem loop_body_hello :
    (loop_body (main_init [] (fun _ => []) "app/42 hello\n".toList)).threads = [0] ∧
    cstr ((loop_body (main_init [] (fun _ => []) "app/42 hello\n".toList)).logmsg_buffer.getD
      0 []) = "app/42 hello\n".toList := by
  have hwf := main_init_well_formed [] (fun _ => []) "app/42 hello\n".toList
  have hr := read_msg_is_line (main_init [] (fun _ => []) "app/42 hello\n".toList).buf
    "app/42 hello\n".toList [] hwf.1 (by decide)
  rw [List.append_nil] at hr
  have hfifo : (main_init [] (fun _ => []) "app/42 hello\n".toList).fifo
      = "app/42 hello\n".toList := rfl
  have hL : (read_msg (main_init [] (fun _ => []) "app/42 hello\n".toList).buf
      (main_init [] (fun _ => []) "app/42 hello\n".toList).fifo).2.2 ≠ 0 := by
    rw [hfifo, hr.2.2]
    decide
  have hf : slot_free (main_init [] (fun _ => []) "app/42 hello\n".toList).logmsg_buffer 0
      = true := create_msgbuf_free _ _ _ (by decide)
  have h := loop_body_found (main_init [] (fun _ => []) "app/42 hello\n".toList) 0 hL
    (by decide) hf (fun j hj => absurd hj (Nat.not_lt_zero j))
  have hlt := slot_free_lt _ _ hf
  have hrb := read_msg_buf (main_init [] (fun _ => []) "app/42 hello\n".toList).buf
    (main_init [] (fun _ => []) "app/42 hello\n".toList).fifo hwf.1
  have hcp := strcpy_slot
    ((main_init [] (fun _ => []) "app/42 hello\n".toList).logmsg_buffer.getD 0 [])
    (read_msg (main_init [] (fun _ => []) "app/42 hello\n".toList).buf
      (main_init [] (fun _ => []) "app/42 hello\n".toList).fifo).1
    (hwf.2.2 _ (getD_mem _ _ hlt)) hrb.2.1
  rw [h]
  refine ⟨rfl, ?_⟩
  simp only
  rw [getD_set_self _ _ _ hlt, hcp.2, hfifo]
  exact hr.1

/-- C4 at a daemon that has just started, with `app/42 hello` in the FIFO:
the message goes to slot 0 and one worker is created, for slot 0. -/
theorem dispatch_one_message_witness :
    well_formed (main_init [] (fun _ => []) "app/42 hello\n".toList) ∧
    (read_msg (main_init [] (fun _ => []) "app/42 hello\n".toList).buf
      (main_init [] (fun _ => []) "app/42 hello\n".toList).fifo).2.2 ≠ 0 ∧
    cstr ((loop_body (main_init [] (fun _ => []) "app/42 hello\n".toList)).logmsg_buffer.getD
      0 []) = cstr (read_msg (main_init [] (fun _ => []) "app/42 hello\n".toList).buf
        (main_init [] (fun _ => []) "app/42 hello\n".toList).fifo).1 ∧
    (loop_body (main_init [] (fun _ => []) "app/42 hello\n".toList)).threads = [] ++ [0] ∧
    cstr (read_msg (main_init [] (fun _ => []) "app/42 hello\n".toList).buf
        (main_init [] (fun _ => []) "app/42 hello\n".toList).fifo).1
      = "app/42 hello\n".toList := by
  have hwf := main_init_well_formed [] (fun _ => []) "app/42 hello\n".toList
  have hr := read_msg_is_line (main_init [] (fun _ => []) "app/42 hello\n".toList).buf
    "app/42 hello\n".toList [] hwf.1 (by decide)
  rw [List.append_nil] at hr
  have hfifo : (main_init [] (fun _ => []) "app/42 hello\n".toList).fifo
      = "app/42 hello\n".toList := rfl
  have hL : (read_msg (main_init [] (fun _ => []) "app/42 hello\n".toList).buf
      (main_init [] (fun _ => []) "app/42 hello\n".toList).fifo).2.2 ≠ 0 := by
    rw [hfifo, hr.2.2]
    decide
  have h := (dispatch_one_message _ hwf hL).1 0 (by decide)
    (create_msgbuf_free _ _ _ (by decide)) (fun j hj => absurd hj (Nat.not_lt_zero j))
  exact ⟨hwf, hL, h.1, h.2.1, by rw [hfifo]; exact hr.1⟩

/-! ## The log writer -/

theorem get_timestamp_length (tstamp0 : List Char) (clk : Clock) :
    (get_timestamp (alloc TIMESTAMP_BUFSIZE tstamp0) clk).length = TIMESTAMP_BUFSIZE := by
  cases h : clk.tm with
  | none => simp only [get_timestamp, h, poke_length, alloc_length]
  | some date =>
    simp only [get_timestamp, h, snprintf]
    simp only [Nat.reduceEqDiff, if_false, poke_length, alloc_length]

theorem get_timestamp_strlen (tstamp0 : List Char) (clk : Clock) :
    strlen (get_timestamp (alloc TIMESTAMP_BUFSIZE tstamp0) clk) < TIMESTAMP_BUFSIZE := by
  cases h : clk.tm with
  | none =>
    simp only [get_timestamp, h]
    rw [poke_zero _ _ (by rw [alloc_length]; decide)]
    simp only [strlen, List.singleton_append, cstr_NUL_cons]
    decide
  | some date =>
    simp only [get_timestamp, h, snprintf]
    simp only [Nat.reduceEqDiff, if_false]
    rw [poke_zero _ _ (by
      simp only [List.length_append, List.length_take, List.length_cons, List.length_nil,
        alloc_length, TIMESTAMP_BUFSIZE]
      omega)]
    rw [strlen, List.append_assoc]
    have := cstr_append_NUL_length_le
      (List.take (64 - 1) (cstr date ++ fmt_03u (clk.tv_usec / 1000)))
      (List.drop (List.take (64 - 1) (cstr date ++ fmt_03u (clk.tv_usec / 1000))
        ++ [NUL]).length (alloc TIMESTAMP_BUFSIZE tstamp0))
    simp only [List.singleton_append] at this ⊢
    have h2 : (List.take (64 - 1) (cstr date ++ fmt_03u (clk.tv_usec / 1000))).length ≤ 63 := by
      rw [List.length_take]; omega
    simp only [TIMESTAMP_BUFSIZE] at this ⊢
    omega

/-- The text formatted by `save_msg` is the timestamp, a blank and the
message of the slot, whenever that message is one the dispatcher can store
(at most 4095 bytes). -/
theorem cstr_log_record (tstamp0 message0 : List Char) (clk : Clock) (arg : Buf)
    (harg : strlen arg < MYSYSLOG_FIFO_BUFSIZE) :
    ∃ t, log_record tstamp0 message0 clk arg
      = (cstr (get_timestamp (alloc TIMESTAMP_BUFSIZE tstamp0) clk) ++ ' ' :: cstr arg)
          ++ NUL :: t := by
  have hts := get_timestamp_strlen tstamp0 clk
  have hlen : (cstr (get_timestamp (alloc TIMESTAMP_BUFSIZE tstamp0) clk)
      ++ ' ' :: cstr arg).length < LOG_WRITER_BUFSIZE := by
    simp only [List.length_append, List.length_cons]
    simp only [strlen, TIMESTAMP_BUFSIZE, MYSYSLOG_FIFO_BUFSIZE, LOG_WRITER_BUFSIZE] at *
    omega
  exact ⟨_, snprintf_fst_short _ _ _ hlen (by rw [alloc_length])⟩

theorem NUL_not_mem_record (ts arg : Buf) : NUL ∉ cstr ts ++ ' ' :: cstr arg := by
  simp only [List.mem_append, List.mem_cons, not_or]
  exact ⟨NUL_not_mem_cstr ts, by decide, NUL_not_mem_cstr arg⟩

theorem save_msg_ok (tstamp0 message0 : List Char) (clk : Clock) (logfile : List Char)
    (arg : Buf) (harg : strlen arg < MYSYSLOG_FIFO_BUFSIZE) :
    save_msg tstamp0 message0 clk true logfile arg
      = { ret := 0,
          logfile := logfile ++ (cstr (get_timestamp (alloc TIMESTAMP_BUFSIZE tstamp0) clk)
            ++ ' ' :: cstr arg),
          arg := poke arg 0 [NUL], mutex_locked := false } := by
  obtain ⟨t, ht⟩ := cstr_log_record tstamp0 message0 clk arg harg
  have hc := cstr_append_NUL _ t (NUL_not_mem_record
    (get_timestamp (alloc TIMESTAMP_BUFSIZE tstamp0) clk) arg)
  simp only [save_msg, write, if_true, ht, strlen, hc, List.take_left']
  simp
  omega

theorem save_msg_fail (tstamp0 message0 : List Char) (clk : Clock) (logfile : List Char)
    (arg : Buf) :
    save_msg tstamp0 message0 clk false logfile arg
      = { ret := -1, logfile := logfile, arg := arg, mutex_locked := true } := by
  simp [save_msg, write]

theorem xmas_timestamp :
    cstr (get_timestamp (alloc TIMESTAMP_BUFSIZE []) xmas) = "Dec 24 12:00:01.250".toList := by
  decide

/-- C6: for every clock, every initial content of the local arrays, every
log file and every slot whose message has at most 4095 bytes, the timestamp
`get_timestamp` produces has at most 63 bytes and `save_msg`, when its `write`
goes through, appends to the log file exactly the timestamp, a blank and the
message of the slot. -/
theorem save_msg_writes_timestamp_and_message (tstamp0 message0 : List Char) (clk : Clock)
    (logfile : List Char) (arg : Buf) (harg : strlen arg < MYSYSLOG_FIFO_BUFSIZE) :
    (cstr (get_timestamp (alloc TIMESTAMP_BUFSIZE tstamp0) clk)).length < TIMESTAMP_BUFSIZE ∧
    (save_msg tstamp0 message0 clk true logfile arg).logfile
      = logfile ++ (cstr (get_timestamp (alloc TIMESTAMP_BUFSIZE tstamp0) clk)
          ++ ' ' :: cstr arg) := by
  refine ⟨get_timestamp_strlen tstamp0 clk, ?_⟩
  rw [save_msg_ok tstamp0 message0 clk logfile arg harg]

/-- C6 at the slot `app/42 hello` and the clock of 24 December. -/
theorem save_msg_writes_timestamp_and_message_witness :
    strlen hello_slot < MYSYSLOG_FIFO_BUFSIZE ∧
    (save_msg [] [] xmas true [] hello_slot).logfile
      = "Dec 24 12:00:01.250 app/42 hello\n".toList := by
  have h := save_msg_writes_timestamp_and_message [] [] xmas [] hello_slot (by decide)
  refine ⟨by decide, ?_⟩
  rw [h.2, xmas_timestamp]
  decide

/-- C7 (the code departs from it): when the `write` on the log file fails,
`save_msg` returns -1 at once: the log file and the slot are as they were and
the mutex is still locked.  For the slot `app/42 hello` the first byte is
still `a`, so the dispatcher does not see the slot as free. -/
theorem save_msg_write_failure_keeps_slot :
    (∀ (tstamp0 message0 : List Char) (clk : Clock) (logfile : List Char) (arg : Buf),
      save_msg tstamp0 message0 clk false logfile arg
        = { ret := -1, logfile := logfile, arg := arg, mutex_locked := true }) ∧
    (save_msg [] [] xmas false [] hello_slot).ret = -1 ∧
    (save_msg [] [] xmas false [] hello_slot).arg.head? = some 'a' ∧
    slot_free [(save_msg [] [] xmas false [] hello_slot).arg] 0 = false ∧
    (save_msg [] [] xmas false [] hello_slot).mutex_locked = true := by
  refine ⟨save_msg_fail, ?_⟩
  rw [save_msg_fail]
  decide

/-! ## From the emitter to the log file -/

theorem digitChar_ne (m : Nat) (h : m < 10) :
    Nat.digitChar m ≠ NL ∧ Nat.digitChar m ≠ NUL := by
  interval_cases m <;> decide

theorem toDigitsCore_ne (fuel : Nat) :
    ∀ (n : Nat) (ds : List Char), (∀ c ∈ ds, c ≠ NL ∧ c ≠ NUL) →
      ∀ c ∈ Nat.toDigitsCore 10 fuel n ds, c ≠ NL ∧ c ≠ NUL := by
  induction fuel with
  | zero =>
    intro n ds h c hc
    exact h c (by simpa [Nat.toDigitsCore] using hc)
  | succ fuel ih =>
    intro n ds h c hc
    have hd := digitChar_ne (n % 10) (Nat.mod_lt _ (by decide))
    have hds : ∀ c ∈ Nat.digitChar (n % 10) :: ds, c ≠ NL ∧ c ≠ NUL := by
      intro x hx
      rcases List.mem_cons.1 hx with e | e
      · rw [e]; exact hd
      · exact h x e
    simp only [Nat.toDigitsCore] at hc
    split at hc
    · exact hds c hc
    · exact ih _ _ hds c hc

theorem fmt_d_ne (i : Int) : ∀ c ∈ fmt_d i, c ≠ NL ∧ c ≠ NUL := by
  intro c hc
  have hn : ∀ n, ∀ c ∈ Nat.toDigits 10 n, c ≠ NL ∧ c ≠ NUL := by
    intro n c hc
    exact toDigitsCore_ne _ _ [] (by simp) c hc
  simp only [fmt_d] at hc
  split at hc
  · rcases List.mem_cons.1 hc with e | e
    · rw [e]; decide
    · exact hn _ c e
  · exact hn _ c hc

/-- The frame of a name and a message without line terminator, when it fits
the array, is a line. -/
theorem frame_is_line (log : mysyslog) (T : List Char) (hname : NL ∉ cstr log.pname)
    (hT : NL ∉ cstr T) (hlen : (frame log T).length < MYSYSLOG_FIFO_BUFSIZE) :
    is_line (frame log T) := by
  have he : frame log T
      = (cstr log.pname ++ '/' :: fmt_d log.pid ++ ' ' :: cstr T) ++ [NL] := by
    simp [frame]
  have hb : ∀ c ∈ cstr log.pname ++ '/' :: fmt_d log.pid ++ ' ' :: cstr T,
      c ≠ NL ∧ c ≠ NUL := by
    intro c hc
    simp only [List.mem_append, List.mem_cons] at hc
    rcases hc with (h | h | h) | h | h
    · exact ⟨fun e => hname (e ▸ h), fun e => NUL_not_mem_cstr _ (e ▸ h)⟩
    · rw [h]; decide
    · exact fmt_d_ne _ c h
    · rw [h]; decide
    · exact ⟨fun e => hT (e ▸ h), fun e => NUL_not_mem_cstr _ (e ▸ h)⟩
  refine ⟨frame_getLast log T, ?_, ?_, hlen⟩
  · rw [he, List.dropLast_concat]
    exact fun h => (hb _ h).1 rfl
  · rw [he]
    intro h
    rcases List.mem_append.1 h with h1 | h1
    · exact (hb _ h1).2 rfl
    · exact absurd (List.mem_singleton.1 h1) (by decide)

/-- When what `putlog` writes starts with a line, the log file receives the
timestamp, a blank and that line. -/
theorem round_trip_of_line (junk1 junk2 : List Char) (heap : Nat → List Char)
    (tstamp0 message0 : List Char) (clk : Clock) (log : mysyslog) (T : List Char)
    (r : Int) (l rest : List Char)
    (hp : putlog junk1 true log T = some (l ++ rest, r)) (hl : is_line l) :
    round_trip junk1 junk2 heap tstamp0 message0 clk log T
      = some (cstr (get_timestamp (alloc TIMESTAMP_BUFSIZE tstamp0) clk) ++ ' ' :: l) := by
  have hwf := main_init_well_formed junk2 heap (l ++ rest)
  have hr : cstr (read_msg (main_init junk2 heap (l ++ rest)).buf
        (main_init junk2 heap (l ++ rest)).fifo).1 = l ∧
      (read_msg (main_init junk2 heap (l ++ rest)).buf
        (main_init junk2 heap (l ++ rest)).fifo).2.1 = rest ∧
      (read_msg (main_init junk2 heap (l ++ rest)).buf
        (main_init junk2 heap (l ++ rest)).fifo).2.2 = l.length :=
    read_msg_is_line (main_init junk2 heap (l ++ rest)).buf l rest hwf.1 hl
  have hrb := read_msg_buf (main_init junk2 heap (l ++ rest)).buf
    (main_init junk2 heap (l ++ rest)).fifo hwf.1
  have hlne : l ≠ [] := by
    obtain ⟨body, hbody, _⟩ := is_line_body l hl
    rw [hbody]; simp
  have hL : (read_msg (main_init junk2 heap (l ++ rest)).buf
      (main_init junk2 heap (l ++ rest)).fifo).2.2 ≠ 0 := by
    rw [hr.2.2]
    exact fun h => hlne (List.length_eq_zero.1 h)
  have hf : slot_free (main_init junk2 heap (l ++ rest)).logmsg_buffer 0 = true :=
    create_msgbuf_free _ _ _ (by decide)
  have hlt := slot_free_lt _ _ hf
  have hlb := loop_body_found (main_init junk2 heap (l ++ rest)) 0 hL (by decide) hf
    (fun j hj => absurd hj (Nat.not_lt_zero j))
  have hcp := strcpy_slot ((main_init junk2 heap (l ++ rest)).logmsg_buffer.getD 0 [])
    (read_msg (main_init junk2 heap (l ++ rest)).buf
      (main_init junk2 heap (l ++ rest)).fifo).1
    (hwf.2.2 _ (getD_mem _ _ hlt)) hrb.2.1
  have hth : (main_init junk2 heap (l ++ rest)).threads ++ [0] = [0] := rfl
  simp only [round_trip, hp, hlb, hth]
  rw [getD_set_self _ _ _ hlt]
  have hs : strlen (strcpy ((main_init junk2 heap (l ++ rest)).logmsg_buffer.getD 0 [])
      0 (read_msg (main_init junk2 heap (l ++ rest)).buf
        (main_init junk2 heap (l ++ rest)).fifo).1) < MYSYSLOG_FIFO_BUFSIZE := by
    rw [strlen, hcp.2]
    exact hrb.2.1
  rw [save_msg_ok _ _ _ _ _ hs, hcp.2, hr.1]
  simp

theorem app42_body_is_line :
    is_line (("app/42 ".toList ++ List.replicate 4084 'x' ++ "...".toList) ++ [NL]) := by
  refine ⟨List.getLast?_concat _, ?_, ?_, ?_⟩
  · rw [List.dropLast_concat]
    exact NL_not_mem_app42_body
  · intro h
    rcases List.mem_append.1 h with h1 | h1
    · exact NUL_not_mem_app42_body h1
    · exact absurd (List.mem_singleton.1 h1) (by decide)
  · rw [List.length_append, app42_body_length]
    decide

/-- C3, as stated, fails in two ways, both for name `app` and pid 42.  With
the text `a`, newline, `b` (a frame of 12 bytes) the log file receives
`Dec 24 12:00:01.250 app/42 a` and a newline, without the rest of the text.
With a text of 4088 bytes `x` (a frame of exactly 4096 bytes) the log file
does not receive the timestamp followed by `app/42`, the text and a newline. -/
theorem round_trip_fails_on_newline_and_on_frame_of_bufsize :
    ((frame app42 "a\nb".toList).length ≤ 4096 ∧
      round_trip [] [] (fun _ => []) [] [] xmas app42 "a\nb".toList
        = some "Dec 24 12:00:01.250 app/42 a\n".toList ∧
      round_trip [] [] (fun _ => []) [] [] xmas app42 "a\nb".toList
        ≠ some "Dec 24 12:00:01.250 app/42 a\nb\n".toList) ∧
    ((frame app42 (List.replicate 4088 'x')).length ≤ 4096 ∧
      round_trip [] [] (fun _ => []) [] [] xmas app42 (List.replicate 4088 'x')
        ≠ some ("Dec 24 12:00:01.250".toList ++ ' ' ::
            ("app/42 ".toList ++ List.replicate 4088 'x' ++ [NL]))) := by
  constructor
  · have hp : putlog [] true app42 "a\nb".toList
        = some ("app/42 a\n".toList ++ "b\n".toList, 11) := by
      rw [putlog_short [] true app42 "a\nb".toList (by decide) (by decide)]
      rfl
    have h := round_trip_of_line [] [] (fun _ => []) [] [] xmas app42 "a\nb".toList 11
      "app/42 a\n".toList "b\n".toList hp (by decide)
    rw [xmas_timestamp] at h
    refine ⟨by decide, h, ?_⟩
    rw [h]
    decide
  · have hl : MYSYSLOG_FIFO_BUFSIZE ≤ (frame app42 (List.replicate 4088 'x')).length := by
      rw [frame_app42_length]; decide
    have hp := putlog_long_ok [] app42 (List.replicate 4088 'x') (by decide) hl
      (by rw [frame_app42_length]; decide)
    have ht : truncated app42 (List.replicate 4088 'x')
        = (("app/42 ".toList ++ List.replicate 4084 'x' ++ "...".toList) ++ [NL]) ++ [NUL] := by
      rw [truncated_app42 4088 (by omega)]
      simp only [List.append_assoc, List.cons_append, List.nil_append]
    rw [ht] at hp
    have h := round_trip_of_line [] [] (fun _ => []) [] [] xmas app42 (List.replicate 4088 'x')
      4096 _ _ hp app42_body_is_line
    rw [xmas_timestamp] at h
    refine ⟨by rw [frame_app42_length], ?_⟩
    rw [h]
    intro e
    have e2 := congrArg List.length (Option.some.inj e)
    have e7 : "app/42 ".toList.length = 7 := by decide
    have e3 : "...".toList.length = 3 := by decide
    simp only [List.length_append, List.length_cons, List.length_nil, List.length_replicate,
      e7, e3] at e2
    omega

/-- C3, amended: for every name and text without NUL and without line
terminator, every pid and every open FIFO, when the frame `name/pid text`
plus line terminator is shorter than `MYSYSLOG_FIFO_BUFSIZE` (at most 4095
bytes), the frame `putlog` writes, read by `read_msg`, copied into the free
slot and formatted by `save_msg`, gives the log record made of the timestamp,
a blank, `name/pid`, a blank, the text and the line terminator. -/
theorem round_trip_record (junk1 junk2 : List Char) (heap : Nat → List Char)
    (tstamp0 message0 : List Char) (clk : Clock) (name : List Char) (pid fd : Int)
    (T : List Char) (hfd : fd ≠ -1) (hn0 : NUL ∉ name) (hn1 : NL ∉ name)
    (hT0 : NUL ∉ T) (hT1 : NL ∉ T)
    (hlen : (frame { pname := name, pid := pid, fifo_fd := fd } T).length
      < MYSYSLOG_FIFO_BUFSIZE) :
    round_trip junk1 junk2 heap tstamp0 message0 clk
        { pname := name, pid := pid, fifo_fd := fd } T
      = some (cstr (get_timestamp (alloc TIMESTAMP_BUFSIZE tstamp0) clk) ++ ' ' ::
          (name ++ '/' :: fmt_d pid ++ ' ' :: T ++ [NL])) := by
  have hc1 : cstr name = name := cstr_of_not_mem name hn0
  have hc2 : cstr T = T := cstr_of_not_mem T hT0
  have hp := putlog_short junk1 true { pname := name, pid := pid, fifo_fd := fd } T hfd hlen
  have hw : write true (frame { pname := name, pid := pid, fifo_fd := fd } T)
      (frame { pname := name, pid := pid, fifo_fd := fd } T).length
      = (frame { pname := name, pid := pid, fifo_fd := fd } T ++ [],
          ((frame { pname := name, pid := pid, fifo_fd := fd } T).length : Int)) := by
    simp [write]
  rw [hw] at hp
  have hl := frame_is_line { pname := name, pid := pid, fifo_fd := fd } T
    (by rw [hc1]; exact hn1) (by rw [hc2]; exact hT1) hlen
  rw [round_trip_of_line junk1 junk2 heap tstamp0 message0 clk _ T _ _ [] hp hl]
  simp only [frame, hc1, hc2]

/-- C3, amended, at name `app`, pid 42 and the text `hello`: the log file
receives `Dec 24 12:00:01.250 app/42 hello`. -/
theorem round_trip_record_witness :
    round_trip [] [] (fun _ => []) [] [] xmas
        { pname := "app".toList, pid := 42, fifo_fd := 3 } "hello".toList
      = some "Dec 24 12:00:01.250 app/42 hello\n".toList := by
  have h := round_trip_record [] [] (fun _ => []) [] [] xmas "app".toList 42 3 "hello".toList
    (by decide) (by decide) (by decide) (by decide) (by decide) (by decide)
  rw [h, xmas_timestamp]
  decide

/-! ## The ownership of the slots -/

theorem first_free_cases (pool : List Buf) (n : Nat) :
    (∃ i, i < n ∧ slot_free pool i = true ∧ ∀ j, j < i → slot_free pool j = false) ∨
    (∀ j, j < n → slot_free pool j = false) := by
  induction n with
  | zero => exact Or.inr (fun j hj => absurd hj (Nat.not_lt_zero j))
  | succ n ih =>
    rcases ih with ⟨i, hi, hf, hb⟩ | hb
    · exact Or.inl ⟨i, by omega, hf, hb⟩
    · cases hf : slot_free pool n with
      | true => exact Or.inl ⟨n, by omega, hf, hb⟩
      | false =>
        right
        intro j hj
        by_cases e : j = n
        · rw [e]; exact hf
        · exact hb j (by omega)

theorem save_msg_arg_length (tstamp0 message0 : List Char) (clk : Clock) (ok : Bool)
    (logfile : List Char) (arg : Buf) :
    (save_msg tstamp0 message0 clk ok logfile arg).arg.length = arg.length := by
  simp only [save_msg]
  split
  · rfl
  · exact poke_length _ _ _

theorem owned_loop_body (d : Daemon) (h : owned d) : owned (loop_body d) := by
  obtain ⟨hwf, hnd, hth⟩ := h
  have hwf2 := hwf
  obtain ⟨hbuf, hplen, hsl⟩ := hwf2
  have hrb := read_msg_buf d.buf d.fifo hbuf
  by_cases hL : (read_msg d.buf d.fifo).2.2 = 0
  · rw [loop_body_empty d hL]
    exact ⟨⟨hrb.1, hplen, hsl⟩, hnd, hth⟩
  · rcases first_free_cases d.logmsg_buffer MAXTHREADS with ⟨i, hi, hf, hb⟩ | hb
    · rw [loop_body_found d i hL hi hf hb]
      have hlt := slot_free_lt _ _ hf
      have hcp := strcpy_slot (d.logmsg_buffer.getD i []) (read_msg d.buf d.fifo).1
        (hsl _ (getD_mem _ _ hlt)) hrb.2.1
      have hni : i ∉ d.threads := by
        intro hm
        have := (hth i hm).2
        rw [hf] at this
        cases this
      refine ⟨well_formed_set d hwf _ _ _ _ _ _ hrb.1 ?_, ?_, ?_⟩
      · rw [strcpy, poke_length]
        exact hsl _ (getD_mem _ _ hlt)
      · simp only
        rw [List.nodup_append]
        refine ⟨hnd, List.nodup_singleton i, ?_⟩
        intro a ha hb2
        rw [List.mem_singleton.1 hb2] at ha
        exact hni ha
      · intro j hj
        simp only at hj ⊢
        rcases List.mem_append.1 hj with h1 | h1
        · have hne : j ≠ i := fun e => hni (e ▸ h1)
          rw [slot_free_set_ne _ _ _ _ hne]
          exact hth j h1
        · rw [List.mem_singleton.1 h1]
          refine ⟨hi, slot_busy_of_cstr _ _ ?_⟩
          rw [getD_set_self _ _ _ hlt, hcp.2]
          intro e
          apply hL
          rw [hrb.2.2, strlen, e]
          rfl
    · rw [loop_body_full d hL hb]
      exact ⟨⟨hrb.1, hplen, hsl⟩, hnd, hth⟩

theorem owned_step (s t : System) (h : owned s.daemon) (hst : Step s t) : owned t.daemon := by
  cases hst with
  | dispatch fifo =>
    apply owned_loop_body
    obtain ⟨⟨h1, h2, h3⟩, h4, h5⟩ := h
    exact ⟨⟨h1, h2, h3⟩, h4, h5⟩
  | finish i tstamp0 message0 clk ok hi hm =>
    obtain ⟨⟨h1, h2, h3⟩, h4, h5⟩ := h
    refine ⟨⟨h1, by simpa using h2, ?_⟩, h4.erase i, ?_⟩
    · intro y hy
      rcases List.mem_or_eq_of_mem_set hy with e | e
      · exact h3 y e
      · rw [e, save_msg_arg_length]
        have hlt : i < s.daemon.logmsg_buffer.length := by
          rw [h2]; exact (h5 i hi).1
        exact h3 _ (getD_mem _ _ hlt)
    · intro j hj
      have hne : j ≠ i := fun e => (List.Nodup.not_mem_erase h4) (e ▸ hj)
      have hj2 := h5 j (List.mem_of_mem_erase hj)
      refine ⟨hj2.1, ?_⟩
      simp only
      rw [slot_free_set_ne _ _ _ _ hne]
      exact hj2.2

theorem owned_reachable (s : System) (h : Reachable s) : owned s.daemon := by
  induction h with
  | init junk heap fifo logfile =>
    refine ⟨main_init_well_formed _ _ _, List.nodup_nil, ?_⟩
    intro i hi
    simp [main_init] at hi
  | step s t _ ht ih => exact owned_step s t ih ht

theorem for_loop_exit (buf : Buf) (pool : List Buf) (threads : List Nat) :
    (for_loop buf MAXTHREADS 0 pool threads).2.2 = MAXTHREADS ∨
    slot_free pool (for_loop buf MAXTHREADS 0 pool threads).2.2 = true := by
  rcases first_free_cases pool MAXTHREADS with ⟨i, hi, hf, hb⟩ | hb
  · rw [for_loop_found buf MAXTHREADS 0 i pool threads (Nat.zero_le _) (by omega) hf
      (fun j _ hj => hb j hj)]
    exact Or.inr hf
  · rw [for_loop_none buf MAXTHREADS 0 pool threads (fun j _ hj => hb j (by omega))]
    exact Or.inl (by simp)

theorem hello_system_reachable : Reachable hello_system := by
  have h0 : Reachable start_system := Reachable.init [] (fun _ => []) [] []
  have h1 := Reachable.step _ _ h0 (Step.dispatch start_system "app/42 hello\n".toList)
  simp only [start_system, main_init] at h1
  simp only [hello_system, main_init]
  exact h1

theorem hello_system_threads : hello_system.daemon.threads = [0] :=
  loop_body_hello.1

/-- C8: in every state reached from the pool of `create_msgbuf` by rounds of
the main loop and by workers running `save_msg` to its end, no two workers
that have not returned hold the same slot, the slot of every such worker is
not free, and the slot at which the dispatch loop stops, whatever the
message, is the slot of none of them. -/
theorem slot_ownership (s : System) (h : Reachable s) :
    s.daemon.threads.Nodup ∧
    (∀ i ∈ s.daemon.threads, slot_free s.daemon.logmsg_buffer i = false) ∧
    (∀ buf, (for_loop buf MAXTHREADS 0 s.daemon.logmsg_buffer s.daemon.threads).2.2
      ∉ s.daemon.threads) := by
  obtain ⟨_, hnd, hth⟩ := owned_reachable s h
  refine ⟨hnd, fun i hi => (hth i hi).2, ?_⟩
  intro buf hm
  have hx := hth _ hm
  rcases for_loop_exit buf s.daemon.logmsg_buffer s.daemon.threads with e | e
  · have := hx.1
    omega
  · rw [hx.2] at e
    cases e

/-- C8 at the state reached by dispatching `app/42 hello`: one worker, on
slot 0, which is not free. -/
theorem slot_ownership_witness :
    Reachable hello_system ∧ hello_system.daemon.threads = [0] ∧
    hello_system.daemon.threads.Nodup ∧
    (∀ i ∈ hello_system.daemon.threads,
      slot_free hello_system.daemon.logmsg_buffer i = false) ∧
    (∀ buf, (for_loop buf MAXTHREADS 0 hello_system.daemon.logmsg_buffer
      hello_system.daemon.threads).2.2 ∉ hello_system.daemon.threads) :=
  ⟨hello_system_reachable, hello_system_threads,
    slot_ownership hello_system hello_system_reachable⟩

/-! ## The critical section of `save_msg` -/

/-- The statements of `save_msg` as the concurrent system takes them: the
result of `save_msg` is decided by the answer of `write` on the formatted
record, and the two answers of `write` are two of the results of a `write` on
the log file. -/
theorem save_msg_statements (tstamp0 message0 : List Char) (clk : Clock) (ok : Bool)
    (logfile : List Char) (arg : Buf) :
    save_msg tstamp0 message0 clk ok logfile arg
      = (if (write ok (log_record tstamp0 message0 clk arg)
              (strlen (log_record tstamp0 message0 clk arg))).2 = -1 then
          { ret := -1,
            logfile := logfile ++ (write ok (log_record tstamp0 message0 clk arg)
              (strlen (log_record tstamp0 message0 clk arg))).1,
            arg := arg, mutex_locked := true }
        else
          { ret := 0,
            logfile := logfile ++ (write ok (log_record tstamp0 message0 clk arg)
              (strlen (log_record tstamp0 message0 clk arg))).1,
            arg := poke arg 0 [NUL], mutex_locked := false }) ∧
    write_res WriteResult.all = write true ∧ write_res WriteResult.fail = write false :=
  ⟨rfl, rfl, rfl⟩

/-! ## The log file under concurrent workers -/

end Mysyslog
